import Mathlib

/-!
Verification of the quiz-extraction engine of `batch_docx_to_h5p.py`.

The document model is shallow: a paragraph is the ordered list of its runs
(text plus boldness), and the XML query locating an embedded picture inside
a paragraph is abstracted as an optional relationship id carried by the
paragraph.  All strings are lists of characters; the Python regexes used by
the extractor are translated into executable character-level matchers with
the same backtracking semantics on the inputs the extractor feeds them.
-/

set_option maxRecDepth 10000

namespace BatchDocx

abbrev Str := List Char

/-- Characters treated as whitespace by Python's `str.strip`, `str.split`
and the regex class `\s` (the ASCII range, which is all the documents use). -/
def isPyWS (c : Char) : Bool :=
  c == ' ' || c == '\t' || c == '\n' || c == '\r' || c == '\x0b' || c == '\x0c'

def lowerStr (s : Str) : Str := s.map Char.toLower

/-- Python `str.strip()`. -/
def strip (s : Str) : Str := ((s.dropWhile isPyWS).reverse.dropWhile isPyWS).reverse

/-- Python `str.split('\n')`. -/
def splitLines (s : Str) : List Str := s.splitOn '\n'

/-- Python `' '.join(s.split())`: collapse whitespace runs to single spaces. -/
def wsCollapse (s : Str) : Str :=
  List.intercalate [' '] ((s.splitOnP isPyWS).filter (fun w => !w.isEmpty))

/-- A regex word character (`\w`): ASCII letter, digit or underscore. -/
def isWordChar (c : Char) : Bool := c.isAlpha || c.isDigit || c == '_'

/-- `pat in s` (Python substring containment). -/
def isSubstrOf (pat s : Str) : Bool :=
  (List.range (s.length + 1)).any (fun i => (s.drop i).take pat.length == pat)

/-- One formatted run of a paragraph: its text and bold attribute
(python-docx's tri-state `run.bold` is truthy only when `True`, so it is a
boolean here). -/
structure Run where
  text : Str
  bold : Bool
deriving DecidableEq

/-- A paragraph: its runs, plus the relationship id of an embedded
image/drawing element if the paragraph contains one.  The field `drawing`
abstracts the XML lookup (`.//pic:pic` and the first `.//a:blip`'s
`r:embed` attribute) performed by `find_image_near_paragraph`. -/
structure Paragraph where
  runs : List Run
  drawing : Option Str
deriving DecidableEq

/-- `paragraph.text` of python-docx: concatenation of the run texts. -/
def Paragraph.text (p : Paragraph) : Str := (p.runs.map Run.text).flatten

/-! ### True/False extraction (`extract_true_false_questions`) -/

/-- `extract_text_with_formatting`: the runs whose text is not pure
whitespace, in order. -/
def extract_text_with_formatting (p : Paragraph) : List Run :=
  p.runs.filter (fun r => !(strip r.text).isEmpty)

def wordCharAt (s : Str) (j : Nat) : Bool :=
  match s.get? j with
  | some c => isWordChar c
  | none => false

/-- Case-insensitive occurrence of `true`/`false` with `\b` on both sides
starting at `j` (regex `\b(True|False)\b`, `re.IGNORECASE`); yields the
lowercased token.  Word boundaries make distinct occurrences disjoint, so
collecting every such position reproduces `re.finditer`'s scan. -/
def tfTokenAt (s : Str) (j : Nat) : Option Str :=
  if (j == 0 || !wordCharAt s (j - 1)) &&
      (lowerStr ((s.drop j).take 4) == ("true").toList) && !wordCharAt s (j + 4) then
    some (("true").toList)
  else if (j == 0 || !wordCharAt s (j - 1)) &&
      (lowerStr ((s.drop j).take 5) == ("false").toList) && !wordCharAt s (j + 5) then
    some (("false").toList)
  else none

/-- All matches of `\b(True|False)\b` in `s`, with their start offsets. -/
def tfMatches (s : Str) : List (Nat × Str) :=
  (List.range s.length).filterMap (fun j => (tfTokenAt s j).map (fun tok => (j, tok)))

/-- `'false' if answer_text.lower() == 'true' else 'true'`. -/
def negateTok (t : Str) : Str :=
  if t = ("true").toList then ("false").toList else ("true").toList

/-- The run (of the filtered run list) whose character span contains offset
`n` — its bold attribute; `false` when the offset is past the end, matching
the loop's untouched default. -/
def boldAtOffset : List Run → Nat → Bool
  | [], _ => false
  | r :: rs, n => if n < r.text.length then r.bold else boldAtOffset rs (n - r.text.length)

/-- `parse_true_false_from_runs`: `none` models the Python `(None, None)`
return; otherwise the question text (text before the last boolean token,
stripped) and the correct answer. -/
def parse_true_false_from_runs (p : Paragraph) : Option (Str × Str) :=
  let parts := extract_text_with_formatting p
  let full := (parts.map Run.text).flatten
  match (tfMatches full).getLast? with
  | none => none
  | some (st, tok) =>
    some (strip (full.take st), if boldAtOffset parts st then tok else negateTok tok)

/-- `is_true_false_question`: the stripped text is searched for
`\b(true|false)\s*$` or `\*\*(true|false)\*\*\s*$` (`re.IGNORECASE`).
Because the subject is stripped, the `\s*$` tail can only be empty, so a
match is a suffix occurrence. -/
def is_true_false_question (text : Str) : Bool :=
  let s := strip text
  (List.range (s.length + 1)).any (fun j =>
    (j == 0 || !wordCharAt s (j - 1)) &&
    ((lowerStr (s.drop j) == ("true").toList) || (lowerStr (s.drop j) == ("false").toList))) ||
  (List.range (s.length + 1)).any (fun j =>
    (lowerStr (s.drop j) == ("**true**").toList) || (lowerStr (s.drop j) == ("**false**").toList))

/-- Section-entry test of the True/False sweep:
`'true or false' in text.lower() or 'true/false' in text.lower()`. -/
def tfEntry (t : Str) : Bool :=
  isSubstrOf (("true or false").toList) (lowerStr t) ||
  isSubstrOf (("true/false").toList) (lowerStr t)

/-- Section-exit test of the True/False sweep. -/
def tfExitHeader (t : Str) : Bool :=
  (t.take 2 == ("**").toList) &&
  (isSubstrOf (("activity").toList) (lowerStr t) || isSubstrOf (("quiz").toList) (lowerStr t)) &&
  !isSubstrOf (("true").toList) (lowerStr t) && !isSubstrOf (("false").toList) (lowerStr t)

structure TFQuestion where
  question : Str
  correct_answer : Str
deriving DecidableEq

/-- One iteration of the True/False sweep: the updated section flag and the
question emitted for this paragraph, if any. -/
def tfStep (inSec : Bool) (p : Paragraph) : Bool × Option TFQuestion :=
  let text := strip p.text
  if text = [] then (inSec, none)
  else if tfEntry text then (true, none)
  else if inSec && tfExitHeader text then (false, none)
  else if inSec && is_true_false_question text then
    match parse_true_false_from_runs p with
    | none => (inSec, none)
    | some (q, a) => if q ≠ [] ∧ a ≠ [] then (inSec, some ⟨q, a⟩) else (inSec, none)
  else (inSec, none)

def tfGo : Bool → List Paragraph → List TFQuestion
  | _, [] => []
  | b, p :: ps =>
    match tfStep b p with
    | (b', some q) => q :: tfGo b' ps
    | (b', none) => tfGo b' ps

def extract_true_false_questions (paras : List Paragraph) : List TFQuestion :=
  tfGo false paras

/-! ### Multiple choice extraction (`extract_multiple_choice_questions`) -/

/-- `find_image_near_paragraph`: scan
`range(max(0, i - 5), min(len(paras), i + 3))` for the first paragraph
carrying an embedded image and return its relationship id. -/
def find_image_near_paragraph (paras : List Paragraph) (i : Nat) : Option Str :=
  let lo := i - 5
  let hi := min paras.length (i + 3)
  (List.range' lo (hi - lo)).findSome? (fun j => (paras.get? j).bind Paragraph.drawing)

/-- Greedy `\s*`. -/
def dropWS (s : Str) : Str := s.dropWhile isPyWS

/-- Case-insensitive literal `pat` (given lowercase) at the head of `s`. -/
def headCI (pat s : Str) : Bool := lowerStr (s.take pat.length) == pat

/-- `.*pat` case-insensitively, where regex `.` does not match a newline. -/
def dotStarCI (pat s : Str) : Bool :=
  (List.range (s.length + 1)).any (fun j =>
    ((s.take j).all (fun c => c != '\n')) && headCI pat (s.drop j))

/-- `re.search(r'Activity\s*1.*quiz', text, re.I) or
re.search(r'quiz.*question', text, re.I)`. -/
def mcEntry (t : Str) : Bool :=
  (List.range (t.length + 1)).any (fun i =>
    let u := t.drop i
    headCI (("activity").toList) u &&
    (match dropWS (u.drop 8) with
     | c :: v => c == '1' && dotStarCI (("quiz").toList) v
     | [] => false)) ||
  (List.range (t.length + 1)).any (fun i =>
    let u := t.drop i
    headCI (("quiz").toList) u && dotStarCI (("question").toList) (u.drop 4))

/-- `re.search(r'Activity\s*[2-9]', text, re.I)`. -/
def mcExit (t : Str) : Bool :=
  (List.range (t.length + 1)).any (fun i =>
    let u := t.drop i
    headCI (("activity").toList) u &&
    (match dropWS (u.drop 8) with
     | c :: _ => decide ('2' ≤ c ∧ c ≤ '9')
     | [] => false))

/-- Second group of `^(\d+)\.\s*(.+?)\?\s*$` applied to the text after the
digits and the dot: the greedy `\s*` backtracks from longest down and for
each choice the lazy `(.+?)` grows from shortest up. -/
def lazyQuestionSplit (t : Str) : Option Str :=
  let m := (t.takeWhile isPyWS).length
  (List.range (m + 1)).findSome? (fun d =>
    let u := t.drop (m - d)
    (List.range u.length).findSome? (fun k0 =>
      let g := u.take (k0 + 1)
      if (g.all (fun c => c != '\n')) && (u.get? (k0 + 1) == some '?') &&
          ((u.drop (k0 + 2)).all isPyWS) then some g else none))

/-- `re.match(r'^(\d+)\.\s*(.+?)\?\s*$', first_line)` followed by
`group(2).strip() + "?"`. -/
def questionStem (l : Str) : Option Str :=
  let ds := l.takeWhile Char.isDigit
  if ds = [] then none
  else
    match l.drop ds.length with
    | '.' :: t => (lazyQuestionSplit t).map (fun g => strip g ++ [ '?' ])
    | _ => none

/-- The character class `[A-D]`. -/
def isOptionLetter (c : Char) : Bool := c == 'A' || c == 'B' || c == 'C' || c == 'D'

/-- `re.match(r'^([A-D])\.\s', line)`: the captured letter. -/
def optionHead (l : Str) : Option Char :=
  match l with
  | a :: '.' :: c :: _ => if isOptionLetter a && isPyWS c then some a else none
  | _ => none

/-- Tail `\s+(.+)$` of a `re.match`: the greedy `\s+` backtracks from its
longest extent down until the final group `(.+)` (which cannot cross a
newline and must reach `$`, i.e. the end or just before one final newline)
is nonempty. -/
def optionTail (t : Str) : Option Str :=
  let m := (t.takeWhile isPyWS).length
  (List.range m).findSome? (fun d =>
    let rest := t.drop (m - d)
    if rest.isEmpty then none
    else if rest.all (fun c => c != '\n') then some rest
    else
      let g := rest.dropLast
      if (rest.getLast? == some '\n') && !g.isEmpty && g.all (fun c => c != '\n') then some g
      else none)

/-- `re.match(r'^([A-D])\.\s+(.+)$', line)`: letter and second group. -/
def optionLineOf (l : Str) : Option (Char × Str) :=
  match l with
  | a :: '.' :: t => if isOptionLetter a then (optionTail t).map (fun g => (a, g)) else none
  | _ => none

/-- The run-to-line cursor's inner `while` loop: as long as the offset is
past the end of the current line, move to the next line and reset the
offset to 0. -/
def cursorAdvance : List Str → Nat → List Str × Nat
  | [], pos => ([], pos)
  | l :: ls, pos => if pos < l.length then (l :: ls, pos) else cursorAdvance ls 0

/-- The run-to-line registration loop: walk the runs keeping the cursor
(remaining lines, offset within the current line); whenever the current
line matches `^([A-D])\.\s`, register the run under that letter. -/
def buildRunsMap : List Run → List Str → Nat → List (Char × Run)
  | [], _, _ => []
  | r :: rs, rem, pos =>
    let a := cursorAdvance rem pos
    let here := match a.1 with
      | [] => []
      | l :: _ =>
        match optionHead l with
        | some c => [(c, r)]
        | none => []
    here ++ buildRunsMap rs a.1 (a.2 + r.text.length)

structure MCOption where
  text : Str
  correct : Bool
deriving DecidableEq

structure MCQuestion where
  question : Str
  options : List MCOption
  image_id : Option Str
deriving DecidableEq

/-- Python `str.rstrip('.')`. -/
def rstripDots (s : Str) : Str := (s.reverse.dropWhile (fun c => c == '.')).reverse

/-- The options built for one question paragraph: every line after the
first matching `^([A-D])\.\s+(.+)$`, in order of appearance; an option is
correct when some non-whitespace run registered under its letter is bold. -/
def mc_options_of (p : Paragraph) : List MCOption :=
  let lines := splitLines (strip p.text)
  let pairs := buildRunsMap p.runs lines 0
  (lines.drop 1).filterMap (fun l =>
    (optionLineOf l).map (fun ol =>
      { text := rstripDots (strip ol.2),
        correct := (pairs.filter (fun pr => pr.1 == ol.1)).any
          (fun pr => !(strip pr.2.text).isEmpty && pr.2.bold) }))

/-- The mutable state of the multiple-choice sweep
(`in_mc_section`, `section_image_id`, the accumulated questions,
`questions_in_current_section`, `self.shared_image_id`). -/
structure MCState where
  inSec : Bool
  sectionImage : Option Str
  qs : List MCQuestion
  qsInSection : List Nat
  sharedImage : Option Str
deriving DecidableEq

def mcInit : MCState := ⟨false, none, [], [], none⟩

/-- One iteration of the multiple-choice sweep for the paragraph at index
`idx`. -/
def mcStep (paras : List Paragraph) (idx : Nat) (st : MCState) (p : Paragraph) : MCState :=
  let text := strip p.text
  if text = [] then st
  else if mcEntry text then
    { st with inSec := true, sectionImage := find_image_near_paragraph paras idx }
  else if mcExit text && st.inSec then
    { st with
      inSec := false
      sharedImage :=
        if st.sectionImage.isSome && !st.qsInSection.isEmpty then st.sectionImage
        else st.sharedImage }
  else if !st.inSec then st
  else
    match splitLines text with
    | [] => st
    | first :: rest =>
      match questionStem first with
      | none => st
      | some q =>
        if rest = [] then st
        else
          let options := mc_options_of p
          if options = [] then st
          else
            let img :=
              match find_image_near_paragraph paras idx with
              | some e => some e
              | none => st.sectionImage
            { st with
              qs := st.qs ++ [⟨q, options, img⟩],
              qsInSection := st.qsInSection ++ [st.qs.length] }

def mcGo (paras : List Paragraph) : Nat → List Paragraph → MCState → MCState
  | _, [], st => st
  | idx, p :: ps, st => mcGo paras (idx + 1) ps (mcStep paras idx st p)

def extract_multiple_choice_questions (paras : List Paragraph) : MCState :=
  mcGo paras 0 paras mcInit

/-! ### Crossword extraction (`extract_crossword_puzzles`) -/

structure Clue where
  orientation : Str
  clue : Str
  answer : Str
deriving DecidableEq

structure Crossword where
  title : Str
  clues : List Clue
deriving DecidableEq

/-- The crossword sweep's mutable state (`crosswords`, `current_crossword`,
`current_orientation`, `in_crossword_section`, `collecting_clues`; the
`clue_counter` is only printed, never used, and is omitted). -/
structure CWState where
  crosswords : List Crossword
  current : Option Crossword
  orientation : Option Str
  inSec : Bool
  collecting : Bool
deriving DecidableEq

def cwInit : CWState := ⟨[], none, none, false, false⟩

/-- Anchored attempt of
`Activity\s*3,?\s*Part\s+(I+)[-\s]*Crossword\s*Puzzle:?(.*)$`
(`re.IGNORECASE`) at the head of `u`, returning groups 1 and 2.  The final
`(.*)$` cannot cross a newline and `$` matches at the end or just before
one final newline. -/
def cwHeaderAt (u : Str) : Option (Str × Str) :=
  if headCI (("activity").toList) u then
    match dropWS (u.drop 8) with
    | '3' :: u1 =>
      let u2 := match u1 with | ',' :: v => v | v => v
      let u3 := dropWS u2
      if headCI (("part").toList) u3 then
        let u4 := u3.drop 4
        let w := (u4.takeWhile isPyWS).length
        if w = 0 then none
        else
          let u5 := u4.drop w
          let ipart := u5.takeWhile (fun c => c == 'I' || c == 'i')
          if ipart = [] then none
          else
            let u6 := (u5.drop ipart.length).dropWhile (fun c => c == '-' || isPyWS c)
            if headCI (("crossword").toList) u6 then
              let u7 := dropWS (u6.drop 9)
              if headCI (("puzzle").toList) u7 then
                let u8 := match u7.drop 6 with | ':' :: v => v | v => v
                if u8.all (fun c => c != '\n') then some (ipart, u8)
                else if (u8.getLast? == some '\n') && (u8.dropLast).all (fun c => c != '\n') then
                  some (ipart, u8.dropLast)
                else none
              else none
            else none
      else none
    | _ => none
  else none

/-- `re.search` of the crossword header pattern: leftmost match. -/
def cwHeader (t : Str) : Option (Str × Str) :=
  (List.range (t.length + 1)).findSome? (fun i => cwHeaderAt (t.drop i))

/-- `re.search(r'Unit\s*2', text, re.I) or re.search(r'Activity\s*4', text, re.I)`. -/
def cwExit (t : Str) : Bool :=
  (List.range (t.length + 1)).any (fun i =>
    let u := t.drop i
    headCI (("unit").toList) u &&
    (match dropWS (u.drop 4) with | '2' :: _ => true | _ => false)) ||
  (List.range (t.length + 1)).any (fun i =>
    let u := t.drop i
    headCI (("activity").toList) u &&
    (match dropWS (u.drop 8) with | '4' :: _ => true | _ => false))

/-- `re.match(r'^Clues?:?\s*$', text, re.I)`, with backtracking over the two
optional characters. -/
def cluesMarker (t : Str) : Bool :=
  headCI (("clue").toList) t &&
  (let u := t.drop 4
   let sCands := match u with
     | c :: v => if c.toLower == 's' then [v, u] else [u]
     | [] => [u]
   sCands.any (fun w =>
     let cCands := match w with | ':' :: v => [v, w] | _ => [w]
     cCands.any (fun v => v.all isPyWS)))

/-- `re.match(r'^(Across|Down)', text, re.I)`: the lowercased orientation
and the length of the matched prefix. -/
def orientationOf (t : Str) : Option (Str × Nat) :=
  if headCI (("across").toList) t then some (("across").toList, 6)
  else if headCI (("down").toList) t then some (("down").toList, 4)
  else none

def capsClass (c : Char) : Bool := (decide ('A' ≤ c) && decide (c ≤ 'Z')) || isPyWS c || c == '-'

/-- `re.match(r'^[A-Z][A-Z\s-]+$', t)` (case-sensitive).  The class
contains every whitespace character including the newline, so `$` is
reached exactly when every character is in the class. -/
def capsMatch (t : Str) : Bool :=
  match t with
  | c :: rest => (decide ('A' ≤ c) && decide (c ≤ 'Z')) && !rest.isEmpty && rest.all capsClass
  | [] => false

/-- Tail of clue pattern 1, `^(\d+)\.\s+(.+?)(?:\s*\(([^)]+)\))?\s*$`, after
the lazy group: either only whitespace remains, or a parenthetical followed
by whitespace. -/
def parenTail (v : Str) : Bool :=
  match v.dropWhile isPyWS with
  | '(' :: w =>
    let inner := w.takeWhile (fun c => c != ')')
    !inner.isEmpty &&
      (match w.drop inner.length with
       | ')' :: rest => rest.all isPyWS
       | _ => false)
  | _ => false

def clueTailOK (v : Str) : Bool := v.all isPyWS || parenTail v

/-- Second group of `^(\d+)\.\s+(.+?)(?:\s*\(([^)]+)\))?\s*$` applied after
the digits and the dot: greedy `\s+` from longest down, lazy `(.+?)` from
shortest up. -/
def clueSplit (t : Str) : Option Str :=
  let m := (t.takeWhile isPyWS).length
  (List.range m).findSome? (fun d =>
    let u := t.drop (m - d)
    (List.range u.length).findSome? (fun k0 =>
      let g := u.take (k0 + 1)
      if (g.all (fun c => c != '\n')) && clueTailOK (u.drop (k0 + 1)) then some g
      else none))

/-- Numbered-clue pattern 1 on the whole paragraph text: the captured clue
group. -/
def cwClueOf (t : Str) : Option Str :=
  let ds := t.takeWhile Char.isDigit
  if ds = [] then none
  else match t.drop ds.length with
    | '.' :: u => clueSplit u
    | _ => none

/-- `re.match(r'^(\d+)\.\s+(.+)$', line)`: the second group (used for the
inline clue lines of an orientation paragraph). -/
def numberedLine (l : Str) : Option Str :=
  let ds := l.takeWhile Char.isDigit
  if ds = [] then none
  else match l.drop ds.length with
    | '.' :: t => optionTail t
    | _ => none

/-- Inline clues of an orientation paragraph: every numbered line of the
remaining text is paired with every bold run of length > 2 of the same
paragraph (uppercased, whitespace-collapsed). -/
def inlineClues (orient : Str) (p : Paragraph) (rest : Str) : List Clue :=
  let boldAnswers := p.runs.filterMap (fun r =>
    if r.bold && !(strip r.text).isEmpty && decide ((strip r.text).length > 2) then
      some ((strip r.text).map Char.toUpper)
    else none)
  ((splitLines rest).map (fun line =>
    match numberedLine (strip line) with
    | some g2 => boldAnswers.map (fun a => (⟨orient, strip g2, wsCollapse a⟩ : Clue))
    | none => [])).flatten

/-- Flush the current crossword into the result list when it has at least
one clue (`if current_crossword and current_crossword.get('clues')`). -/
def flushCW (st : CWState) : List Crossword :=
  match st.current with
  | some cw => if cw.clues ≠ [] then st.crosswords ++ [cw] else st.crosswords
  | none => st.crosswords

def mkTitle (partNum suffix : Str) : Str :=
  ("Activity 3, Part ").toList ++ partNum ++ (" - Crossword Puzzle").toList ++
    (if strip suffix ≠ [] then (": ").toList ++ strip suffix else [])

/-- One iteration of the crossword sweep: the updated state and how far the
cursor advances (2 when a two-paragraph clue pair was consumed, else 1). -/
def cwStep (st : CWState) (p : Paragraph) (next? : Option Paragraph) : CWState × Nat :=
  let text := strip p.text
  if text = [] then (st, 1)
  else
    match cwHeader text with
    | some pr =>
      ({ crosswords := flushCW st
         current := some ⟨mkTitle pr.1 pr.2, []⟩
         orientation := none
         inSec := true
         collecting := false }, 1)
    | none =>
      if cwExit text then
        match st.current with
        | some cw =>
          if cw.clues ≠ [] then
            ({ st with crosswords := st.crosswords ++ [cw], current := none, inSec := false }, 1)
          else ({ st with inSec := false }, 1)
        | none => ({ st with inSec := false }, 1)
      else
        match st.current with
        | none => (st, 1)
        | some cw =>
          if !st.inSec then (st, 1)
          else if cluesMarker text then ({ st with collecting := true }, 1)
          else
            match orientationOf text with
            | some od =>
              let rest := strip (text.drop od.2)
              ({ st with
                 orientation := some od.1
                 collecting := true
                 current := some ⟨cw.title, cw.clues ++ inlineClues od.1 p rest⟩ }, 1)
            | none =>
              if !st.collecting then (st, 1)
              else
                match st.orientation with
                | none => (st, 1)
                | some orient =>
                  match cwClueOf text with
                  | some g =>
                    match next? with
                    | some np =>
                      if capsMatch (strip np.text) then
                        ({ st with current := some ⟨cw.title,
                             cw.clues ++ [⟨orient, strip g, wsCollapse (strip np.text)⟩]⟩ }, 2)
                      else (st, 1)
                    | none => (st, 1)
                  | none =>
                    if (text.any (fun c => c == '(')) && (text.any (fun c => c == ')')) then
                      match next? with
                      | some np =>
                        let boldParts := np.runs.filterMap (fun r =>
                          if r.bold && !(strip r.text).isEmpty then
                            some ((strip r.text).map Char.toUpper)
                          else none)
                        match boldParts with
                        | b0 :: _ =>
                          if capsMatch b0 then
                            ({ st with current := some ⟨cw.title,
                                 cw.clues ++ [⟨orient, text, wsCollapse b0⟩]⟩ }, 2)
                          else (st, 1)
                        | [] => (st, 1)
                      | none => (st, 1)
                    else (st, 1)

def cwGo (st : CWState) : List Paragraph → CWState
  | [] => st
  | p :: ps =>
    let r := cwStep st p ps.head?
    if r.2 = 2 then
      match ps with
      | [] => r.1
      | _ :: ps' => cwGo r.1 ps'
    else cwGo r.1 ps

def extract_crossword_puzzles (paras : List Paragraph) : List Crossword :=
  flushCW (cwGo cwInit paras)

/-! ### Concrete documents used by the theorems -/

/-- The multiple-choice paragraph text of the spec's worked example. -/
def mcText : Str :=
  ("3. Which planet is closest to the sun?\nA. Venus\nB. Mercury\nC. Earth\nD. Mars").toList

/-- A section header entering the multiple-choice sweep. -/
def mcHeaderPara : Paragraph := ⟨[⟨("Activity 1 quiz questions").toList, false⟩], none⟩

/-- `mcText` decomposed so that every physical line and every newline
separator is its own run, with exactly the run rendering `B. Mercury`
bold. -/
def qParaPerLine : Paragraph := ⟨[
  ⟨("3. Which planet is closest to the sun?").toList, false⟩,
  ⟨("\n").toList, false⟩,
  ⟨("A. Venus").toList, false⟩,
  ⟨("\n").toList, false⟩,
  ⟨("B. Mercury").toList, true⟩,
  ⟨("\n").toList, false⟩,
  ⟨("C. Earth").toList, false⟩,
  ⟨("\n").toList, false⟩,
  ⟨("D. Mars").toList, false⟩], none⟩

/-- `mcText` decomposed into three runs whose first and last span line
breaks; again exactly the run rendering `B. Mercury` is bold. -/
def qParaSpanning : Paragraph := ⟨[
  ⟨("3. Which planet is closest to the sun?\nA. Venus\n").toList, false⟩,
  ⟨("B. Mercury").toList, true⟩,
  ⟨("\nC. Earth\nD. Mars").toList, false⟩], none⟩

/-- The options list the claim expects for `mcText`. -/
def claimedOptions : List MCOption :=
  [⟨("Venus").toList, false⟩, ⟨("Mercury").toList, true⟩,
   ⟨("Earth").toList, false⟩, ⟨("Mars").toList, false⟩]

/-! ### C1 -/

/-- C1 (amended): for the decomposition of the example multiple-choice
paragraph in which each physical line and each newline separator is its own
run and exactly the `B. Mercury` run is bold, extraction inside a
MultipleChoice section produces the options
`[Venus ✗, Mercury ✓, Earth ✗, Mars ✗]`. -/
theorem c1_theorem :
    (qParaPerLine.runs.map Run.text).flatten = mcText ∧
    qParaPerLine.runs.map Run.bold =
      [false, false, false, false, true, false, false, false, false] ∧
    (extract_multiple_choice_questions [mcHeaderPara, qParaPerLine]).qs =
      [⟨("Which planet is closest to the sun?").toList, claimedOptions, none⟩] := by
  decide

/-- C1 (counterexample): the claim quantifies over *every* decomposition
into runs with exactly the `B. Mercury` run bold, but for a decomposition
whose runs span line breaks the cursor of the run-to-line reconstruction
drifts (it discards the overflow when it advances to the next line), the
bold run is registered to option A, and extraction marks `Venus` — not
`Mercury` — correct. -/
theorem c1_counterexample :
    (qParaSpanning.runs.map Run.text).flatten = mcText ∧
    qParaSpanning.runs.map Run.bold = [false, true, false] ∧
    (extract_multiple_choice_questions [mcHeaderPara, qParaSpanning]).qs.map MCQuestion.options =
      [[⟨("Venus").toList, true⟩, ⟨("Mercury").toList, false⟩,
        ⟨("Earth").toList, false⟩, ⟨("Mars").toList, false⟩]] ∧
    ¬ (extract_multiple_choice_questions [mcHeaderPara, qParaSpanning]).qs.map MCQuestion.options =
      [claimedOptions] := by
  decide

/-! ### C9 -/

/-- C9: on an empty paragraph sequence all three sweeps terminate (they are
total Lean functions) and produce empty result lists. -/
theorem c9_theorem :
    (extract_multiple_choice_questions []).qs = [] ∧
    extract_true_false_questions [] = [] ∧
    extract_crossword_puzzles [] = [] :=
  ⟨rfl, rfl, rfl⟩

/-! ### C3 -/

/-- `findSome?` over `range' lo n` returns `some e` exactly when some index
in the half-open window maps to `some e` and every earlier index in the
window maps to `none`. -/
theorem findSome?_range'_iff {α : Type} (f : Nat → Option α) :
    ∀ (n lo : Nat) (e : α),
      (List.range' lo n).findSome? f = some e ↔
        ∃ j, lo ≤ j ∧ j < lo + n ∧ f j = some e ∧ ∀ k, lo ≤ k → k < j → f k = none := by
  intro n
  induction n with
  | zero =>
    intro lo e
    constructor
    · intro h; cases h
    · rintro ⟨j, h1, h2, -⟩; omega
  | succ n ih =>
    intro lo e
    rw [List.range'_succ, List.findSome?_cons]
    cases hf : f lo with
    | some b =>
      constructor
      · intro h
        refine ⟨lo, Nat.le_refl _, by omega, ?_, ?_⟩
        · rw [hf]; exact h
        · intro k hk1 hk2; omega
      · rintro ⟨j, hj1, hj2, hj3, hj4⟩
        rcases Nat.lt_or_ge lo j with hlt | hge
        · rw [hj4 lo (Nat.le_refl _) hlt] at hf; cases hf
        · have hj : j = lo := Nat.le_antisymm (by omega) hj1
          subst hj; rw [hj3] at hf; exact hf.symm
    | none =>
      rw [ih (lo + 1) e]
      constructor
      · rintro ⟨j, hj1, hj2, hj3, hj4⟩
        refine ⟨j, by omega, by omega, hj3, ?_⟩
        intro k hk1 hk2
        rcases Nat.lt_or_ge k (lo + 1) with hlt | hge
        · have : k = lo := by omega
          subst this; exact hf
        · exact hj4 k hge hk2
      · rintro ⟨j, hj1, hj2, hj3, hj4⟩
        have hjlo : j ≠ lo := by
          intro hj; subst hj; rw [hj3] at hf; cases hf
        refine ⟨j, by omega, by omega, hj3, fun k hk1 hk2 => hj4 k (by omega) hk2⟩

/-- C3 (amended): `find_image_near_paragraph` inspects exactly the indices
of `range(max(0, i-5), min(len, i+3))` — the 5 paragraphs before, the
paragraph itself and the 2 (not 3) paragraphs after — and returns the
relationship id of the first paragraph in that window containing an
embedded image/drawing element. -/
theorem c3_theorem (paras : List Paragraph) (i : Nat) (e : Str) :
    find_image_near_paragraph paras i = some e ↔
      ∃ j, i - 5 ≤ j ∧ j < min paras.length (i + 3) ∧
        (paras.get? j).bind Paragraph.drawing = some e ∧
        ∀ k, i - 5 ≤ k → k < j → (paras.get? k).bind Paragraph.drawing = none := by
  simp only [find_image_near_paragraph]
  rw [findSome?_range'_iff]
  constructor
  · rintro ⟨j, h1, h2, h3, h4⟩
    exact ⟨j, h1, by omega, h3, h4⟩
  · rintro ⟨j, h1, h2, h3, h4⟩
    exact ⟨j, h1, by omega, h3, h4⟩

/-- Modelled from the claim's wording: the window of paragraph indices from
`i-5` through `i+3` *inclusive* (clamped to the document bounds), i.e. 5
paragraphs before and 3 after. -/
def claimWindowFind (paras : List Paragraph) (i : Nat) : Option Str :=
  let lo := i - 5
  let hi := min (paras.length - 1) (i + 3)
  (List.range' lo (hi + 1 - lo)).findSome? (fun j => (paras.get? j).bind Paragraph.drawing)

def pPlain : Paragraph := ⟨[⟨("x").toList, false⟩], none⟩
def pWithImage : Paragraph := ⟨[], some (("rId9").toList)⟩

/-- C3 (counterexample): with the only image in paragraph 3, the claimed
window for paragraph 0 (`0-5` through `0+3` inclusive) contains it, but the
code's `range(max(0, 0-5), min(4, 0+3))` stops at index 2 and finds
nothing. -/
theorem c3_counterexample :
    claimWindowFind [pPlain, pPlain, pPlain, pWithImage] 0 = some (("rId9").toList) ∧
    find_image_near_paragraph [pPlain, pPlain, pPlain, pWithImage] 0 = none := by
  decide

/-! ### C4 -/

theorem ws_chars {c : Char} (h : isPyWS c = true) :
    c = ' ' ∨ c = '\t' ∨ c = '\n' ∨ c = '\r' ∨ c = '\x0b' ∨ c = '\x0c' := by
  simpa [isPyWS, or_assoc] using h

theorem not_ws_of_two_le {c : Char} (h : '2' ≤ c) : isPyWS c = false := by
  cases hws : isPyWS c
  · rfl
  · rcases ws_chars hws with rfl | rfl | rfl | rfl | rfl | rfl <;> exact absurd h (by decide)

theorem dropWhile_append_all {α : Type} {p : α → Bool} {ws l : List α}
    (h : ∀ c ∈ ws, p c = true) : (ws ++ l).dropWhile p = l.dropWhile p := by
  induction ws with
  | nil => rfl
  | cons a as ih =>
    rw [List.cons_append, List.dropWhile_cons, h a (List.mem_cons_self a as)]
    exact ih (fun c hc => h c (List.mem_cons_of_mem a hc))

/-- The property the amended C4 ascribes to the exit pattern: the text
contains `Activity` (case-insensitively) followed by optional whitespace
and one digit between `2` and `9`. -/
def ActivityNSpec (t : Str) : Prop :=
  ∃ (pre act ws post : Str) (d : Char),
    t = pre ++ (act ++ (ws ++ d :: post)) ∧ lowerStr act = ("activity").toList ∧
    (∀ c ∈ ws, isPyWS c = true) ∧ '2' ≤ d ∧ d ≤ '9'

theorem activity_len : (("activity").toList).length = 8 := rfl

/-- The search `re.search(r'Activity\s*[2-9]', t, re.I)` succeeds exactly
on texts with the `ActivityNSpec` shape. -/
theorem mcExit_iff (t : Str) : mcExit t = true ↔ ActivityNSpec t := by
  constructor
  · intro h
    simp only [mcExit, List.any_eq_true, List.mem_range] at h
    obtain ⟨i, hi, hcond⟩ := h
    rw [Bool.and_eq_true] at hcond
    obtain ⟨hact, hrest⟩ := hcond
    rw [headCI, beq_iff_eq, activity_len] at hact
    rcases hd : dropWS ((t.drop i).drop 8) with - | ⟨d, post⟩
    · rw [hd] at hrest; cases hrest
    · rw [hd] at hrest
      have hdig : '2' ≤ d ∧ d ≤ '9' := of_decide_eq_true hrest
      refine ⟨t.take i, (t.drop i).take 8, ((t.drop i).drop 8).takeWhile isPyWS, post, d,
        ?_, hact, ?_, hdig.1, hdig.2⟩
      · have e1 : ((t.drop i).drop 8).takeWhile isPyWS ++ d :: post = (t.drop i).drop 8 := by
          rw [dropWS] at hd
          conv_rhs => rw [← List.takeWhile_append_dropWhile isPyWS ((t.drop i).drop 8)]
          rw [hd]
        rw [e1, List.take_append_drop, List.take_append_drop]
      · intro c hc; exact List.mem_takeWhile_imp hc
  · rintro ⟨pre, act, ws, post, d, rfl, hlow, hws, h2, h9⟩
    have hlen : act.length = 8 := by
      have := congrArg List.length hlow
      simpa [lowerStr, activity_len] using this
    simp only [mcExit, List.any_eq_true, List.mem_range]
    refine ⟨pre.length, ?_, ?_⟩
    · simp only [List.length_append, List.length_cons]; omega
    · rw [Bool.and_eq_true]
      have hdrop : (pre ++ (act ++ (ws ++ d :: post))).drop pre.length =
          act ++ (ws ++ d :: post) := List.drop_left pre _
      constructor
      · rw [headCI, beq_iff_eq, activity_len, hdrop, List.take_left' hlen]
        exact hlow
      · rw [hdrop, List.drop_left' hlen, dropWS, dropWhile_append_all hws,
          List.dropWhile_cons, not_ws_of_two_le h2]
        exact decide_eq_true ⟨h2, h9⟩

/-- Inside a multiple-choice section, a nonempty paragraph that does not
match the entry pattern keeps the section open unless the exit pattern
fires. -/
theorem mcStep_inSec_stable (paras : List Paragraph) (idx : Nat) (st : MCState) (p : Paragraph)
    (h2 : strip p.text ≠ []) (h3 : mcEntry (strip p.text) = false)
    (hmc : mcExit (strip p.text) = false) :
    (mcStep paras idx st p).inSec = st.inSec := by
  unfold mcStep
  simp only [h2, h3, hmc, if_neg, Bool.false_eq_true, if_false, Bool.false_and]
  split
  · rfl
  · split
    · rfl
    · split
      · rfl
      · split
        · rfl
        · split
          · rfl
          · rfl

/-- C4 (amended): once inside a MultipleChoice section, a nonempty
paragraph that does not match the section-entry pattern (which takes
precedence) exits the section exactly when its text contains `Activity`,
optional whitespace, and a single digit `2`–`9`; in particular
`Activity 10` does *not* end the section. -/
theorem c4_theorem (paras : List Paragraph) (idx : Nat) (st : MCState) (p : Paragraph)
    (h1 : st.inSec = true) (h2 : strip p.text ≠ []) (h3 : mcEntry (strip p.text) = false) :
    ((mcStep paras idx st p).inSec = false ↔ ActivityNSpec (strip p.text)) := by
  rw [← mcExit_iff]
  cases hmc : mcExit (strip p.text) with
  | true =>
    unfold mcStep
    simp only [h2, h3, hmc, if_neg, Bool.false_eq_true, if_false, h1, Bool.and_self, if_true]
  | false =>
    rw [mcStep_inSec_stable paras idx st p h2 h3 hmc, h1]
    simp

/-- C4 (counterexample): while in a MultipleChoice section, the paragraph
`Activity 10` — an `Activity N` header with `N = 10 ≥ 2` — does not exit
the section, because the exit regex `Activity\s*[2-9]` only accepts a
single digit `2`–`9`. -/
theorem c4_counterexample :
    strip (Paragraph.text ⟨[⟨("Activity 10").toList, false⟩], none⟩) = ("Activity 10").toList ∧
    (mcStep [] 0 ⟨true, none, [], [], none⟩ ⟨[⟨("Activity 10").toList, false⟩], none⟩).inSec
      = true := by
  decide

/-- C4 (witness): the amended characterization applied to the paragraph
`Activity 2` in an open section: the step exits. -/
theorem c4_witness :
    (mcStep [] 0 ⟨true, none, [], [], none⟩ ⟨[⟨("Activity 2").toList, false⟩], none⟩).inSec
      = false :=
  (c4_theorem [] 0 ⟨true, none, [], [], none⟩ ⟨[⟨("Activity 2").toList, false⟩], none⟩
      rfl (by decide) (by decide)).mpr
    ⟨[], ("Activity").toList, [' '], [], '2', by decide, by decide,
      by decide, by decide, by decide⟩

/-! ### C2 -/

/-- Total length of the filtered run texts before index `j`. -/
def offBefore (rs : List Run) (j : Nat) : Nat :=
  ((rs.take j).map (fun r => r.text.length)).sum

/-- `boldAtOffset` reads exactly the bold attribute of the run whose
character span contains the offset. -/
theorem boldAtOffset_span (rs : List Run) (n : Nat)
    (h : n < ((rs.map Run.text).flatten).length) :
    ∃ j r, rs.get? j = some r ∧ offBefore rs j ≤ n ∧
      n < offBefore rs j + r.text.length ∧ boldAtOffset rs n = r.bold := by
  induction rs generalizing n with
  | nil => simp at h
  | cons r rs ih =>
    by_cases hn : n < r.text.length
    · refine ⟨0, r, rfl, ?_, ?_, ?_⟩
      · simp [offBefore]
      · simpa [offBefore] using hn
      · simp [boldAtOffset, hn]
    · have h' : n - r.text.length < ((rs.map Run.text).flatten).length := by
        simp only [List.map_cons, List.flatten_cons, List.length_append] at h
        omega
      obtain ⟨j, r', hget, hle, hlt, hbold⟩ := ih (n - r.text.length) h'
      have hoff : offBefore (r :: rs) (j + 1) = r.text.length + offBefore rs j := by
        simp [offBefore, List.take_succ_cons]
      refine ⟨j + 1, r', by simpa using hget, ?_, ?_, ?_⟩
      · rw [hoff]; omega
      · rw [hoff]; omega
      · simpa [boldAtOffset, hn] using hbold

/-- A last match of the boolean-token scan is a boundary-checked token
occurrence inside the text. -/
theorem tfMatches_getLast_facts {s : Str} {st0 : Nat} {tok : Str}
    (h : (tfMatches s).getLast? = some (st0, tok)) :
    st0 < s.length ∧ tfTokenAt s st0 = some tok := by
  have hmem := List.mem_of_getLast?_eq_some h
  simp only [tfMatches, List.mem_filterMap, List.mem_range] at hmem
  obtain ⟨j, hj, hopt⟩ := hmem
  rw [Option.map_eq_some'] at hopt
  obtain ⟨tk, htk, heq⟩ := hopt
  obtain ⟨rfl, rfl⟩ := Prod.mk.injEq .. ▸ heq
  exact ⟨hj, htk⟩

/-- C2: whenever the concatenated text of the non-whitespace runs contains
a whole-word `true`/`false` token, `parse_true_false_from_runs` takes the
*last* match; the question is the stripped text before it, and the answer
is the token itself if the run whose character span contains the match
start is bold, and its logical negation otherwise. -/
theorem c2_theorem (p : Paragraph) (st0 : Nat) (tok : Str)
    (h : (tfMatches (((extract_text_with_formatting p).map Run.text).flatten)).getLast?
        = some (st0, tok)) :
    ∃ j r, (extract_text_with_formatting p).get? j = some r ∧
      offBefore (extract_text_with_formatting p) j ≤ st0 ∧
      st0 < offBefore (extract_text_with_formatting p) j + r.text.length ∧
      parse_true_false_from_runs p =
        some (strip ((((extract_text_with_formatting p).map Run.text).flatten).take st0),
          if r.bold then tok else negateTok tok) := by
  obtain ⟨hlen, -⟩ := tfMatches_getLast_facts h
  rw [List.length_flatten] at hlen
  have hlen' : st0 < (((extract_text_with_formatting p).map Run.text).flatten).length := by
    rw [List.length_flatten]; exact hlen
  obtain ⟨j, r, hget, hle, hlt, hbold⟩ := boldAtOffset_span _ st0 hlen'
  refine ⟨j, r, hget, hle, hlt, ?_⟩
  simp only [parse_true_false_from_runs, h]
  rw [hbold]

def tfWitPara : Paragraph := ⟨[⟨("Sky is blue. ").toList, false⟩, ⟨("True").toList, true⟩], none⟩

/-- C2 (witness): the characterization applied to the paragraph
`Sky is blue. `/`True` (second run bold), whose last token starts at
offset 13. -/
theorem c2_witness :
    ∃ j r, (extract_text_with_formatting tfWitPara).get? j = some r ∧
      offBefore (extract_text_with_formatting tfWitPara) j ≤ 13 ∧
      13 < offBefore (extract_text_with_formatting tfWitPara) j + r.text.length ∧
      parse_true_false_from_runs tfWitPara =
        some (strip ((((extract_text_with_formatting tfWitPara).map Run.text).flatten).take 13),
          if r.bold then ("true").toList else negateTok (("true").toList)) :=
  c2_theorem tfWitPara 13 (("true").toList) (by decide)

/-! ### C10 -/

/-- C10: when the stripped text before the last boolean token is empty,
`parse_true_false_from_runs` returns an empty question text, and the
True/False sweep emits no question for the paragraph. -/
theorem c10_theorem (p : Paragraph) (b : Bool) (st0 : Nat) (tok : Str)
    (h : (tfMatches (((extract_text_with_formatting p).map Run.text).flatten)).getLast?
        = some (st0, tok))
    (hq : strip ((((extract_text_with_formatting p).map Run.text).flatten).take st0) = []) :
    parse_true_false_from_runs p =
      some ([], if boldAtOffset (extract_text_with_formatting p) st0 then tok
        else negateTok tok) ∧
    (tfStep b p).2 = none := by
  have hp : parse_true_false_from_runs p =
      some ([], if boldAtOffset (extract_text_with_formatting p) st0 then tok
        else negateTok tok) := by
    simp only [parse_true_false_from_runs, h, hq]
  refine ⟨hp, ?_⟩
  simp only [tfStep]
  split
  · rfl
  · split
    · rfl
    · split
      · rfl
      · split
        · split
          · rfl
          · rename_i q a heq
            rw [hp] at heq
            obtain ⟨h1, -⟩ := Prod.mk.injEq .. ▸ (Option.some.inj heq)
            simp [← h1]
        · rfl

def tfSoloPara : Paragraph := ⟨[⟨("True").toList, true⟩], none⟩

/-- C10 (witness): the sole-token paragraph `True` (bold) inside a
True/False section: the parse yields an empty question and the sweep emits
nothing. -/
theorem c10_witness :
    parse_true_false_from_runs tfSoloPara =
      some ([], if boldAtOffset (extract_text_with_formatting tfSoloPara) 0 then ("true").toList
        else negateTok (("true").toList)) ∧
    (tfStep true tfSoloPara).2 = none :=
  c10_theorem tfSoloPara true 0 (("true").toList) (by decide) (by decide)

/-! ### C8 -/

/-- C8: in each of the three sweeps, a nonempty paragraph matching the
pass's section-entry pattern leaves the classifier inside the section — the
exit transition is never applied to the same paragraph (for the crossword
pass the entry moreover installs a current crossword). -/
theorem c8_theorem :
    (∀ (b : Bool) (p : Paragraph), strip p.text ≠ [] → tfEntry (strip p.text) = true →
      (tfStep b p).1 = true) ∧
    (∀ (paras : List Paragraph) (idx : Nat) (st : MCState) (p : Paragraph),
      strip p.text ≠ [] → mcEntry (strip p.text) = true →
      (mcStep paras idx st p).inSec = true) ∧
    (∀ (st : CWState) (p : Paragraph) (n : Option Paragraph),
      strip p.text ≠ [] → (cwHeader (strip p.text)).isSome = true →
      (cwStep st p n).1.inSec = true ∧ ((cwStep st p n).1.current).isSome = true) := by
  refine ⟨?_, ?_, ?_⟩
  · intro b p h1 h2
    simp [tfStep, h1, h2]
  · intro paras idx st p h1 h2
    simp [mcStep, h1, h2]
  · intro st p n h1 h2
    obtain ⟨pr, hpr⟩ := Option.isSome_iff_exists.mp h2
    simp [cwStep, h1, hpr]

def tfEntryPara : Paragraph := ⟨[⟨("Quiz: True or False").toList, false⟩], none⟩
def cwHeaderPara : Paragraph := ⟨[⟨("Activity 3, Part I - Crossword Puzzle").toList, false⟩], none⟩

set_option maxHeartbeats 2000000 in
/-- C8 (witness): the three entry statements applied to concrete entry
headers, from arbitrary out-of-section states. -/
theorem c8_witness :
    (tfStep false tfEntryPara).1 = true ∧
    (mcStep [] 0 mcInit mcHeaderPara).inSec = true ∧
    ((cwStep cwInit cwHeaderPara none).1.inSec = true ∧
      ((cwStep cwInit cwHeaderPara none).1.current).isSome = true) :=
  ⟨c8_theorem.1 false tfEntryPara (by decide) (by decide),
   c8_theorem.2.1 [] 0 mcInit mcHeaderPara (by decide) (by decide),
   c8_theorem.2.2 cwInit cwHeaderPara none (by decide) (by decide)⟩

/-! ### C7 -/

theorem flushCW_good {st : CWState} (h : ∀ cw ∈ st.crosswords, cw.clues ≠ [])
    (cw : Crossword) (hm : cw ∈ flushCW st) : cw.clues ≠ [] := by
  unfold flushCW at hm
  split at hm
  · rename_i c
    split at hm
    · rcases List.mem_append.mp hm with hm' | hm'
      · exact h cw hm'
      · rw [List.mem_singleton] at hm'
        subst hm'
        assumption
    · exact h cw hm
  · exact h cw hm

set_option maxHeartbeats 2000000 in
theorem cwStep_good {st : CWState} (p : Paragraph) (n : Option Paragraph)
    (h : ∀ cw ∈ st.crosswords, cw.clues ≠ []) :
    ∀ cw ∈ (cwStep st p n).1.crosswords, cw.clues ≠ [] := by
  intro cw hm
  simp only [cwStep] at hm
  repeat' split at hm
  all_goals try exact h cw hm
  all_goals try exact flushCW_good h cw hm
  all_goals rcases List.mem_append.mp (show cw ∈ _ ++ _ from hm) with hm' | hm'
  all_goals try exact h cw hm'
  all_goals rw [List.mem_singleton] at hm'
  all_goals subst hm'
  all_goals assumption

theorem cwGo_good : ∀ (st : CWState) (ps : List Paragraph),
    (∀ cw ∈ st.crosswords, cw.clues ≠ []) → ∀ cw ∈ (cwGo st ps).crosswords, cw.clues ≠ [] := by
  intro st ps
  induction st, ps using cwGo.induct with
  | case1 st =>
    intro h
    simpa [cwGo] using h
  | case2 st p r hr =>
    intro h
    simp only [cwGo]
    split
    · exact cwStep_good _ _ h
    · simpa only [cwGo] using cwStep_good p ([].head?) h
  | case3 st p1 p2 ps' r hr ih =>
    intro h
    simp only [cwGo]
    rw [if_pos hr]
    exact ih (cwStep_good _ _ h)
  | case4 st p ps' r hr ih =>
    intro h
    cases ps' with
    | nil =>
      simp only [cwGo]
      rw [if_neg hr]
      simpa only [cwGo] using cwStep_good p ([].head?) h
    | cons q qs =>
      simp only [cwGo]
      rw [if_neg hr]
      exact ih (cwStep_good _ _ h)

/-- C7: every crossword in the final output has at least one clue: empty
crosswords are never flushed into the result list. -/
theorem c7_theorem (paras : List Paragraph) (cw : Crossword)
    (h : cw ∈ extract_crossword_puzzles paras) : cw.clues ≠ [] := by
  unfold extract_crossword_puzzles at h
  refine flushCW_good (cwGo_good cwInit paras ?_) cw h
  intro c hc
  simp [cwInit] at hc

def cwAcrossPara : Paragraph := ⟨[⟨("Across").toList, false⟩], none⟩
def cwCluePara : Paragraph := ⟨[⟨("4. A frozen form of water").toList, false⟩], none⟩
def cwIcePara : Paragraph := ⟨[⟨("ICE").toList, false⟩], none⟩

set_option maxHeartbeats 2000000 in
/-- C7 (witness): the invariant applied to the crossword extracted from a
concrete four-paragraph document. -/
theorem c7_witness :
    (⟨("Activity 3, Part I - Crossword Puzzle").toList,
      [⟨("across").toList, ("A frozen form of water").toList, ("ICE").toList⟩]⟩ :
        Crossword).clues ≠ [] :=
  c7_theorem [cwHeaderPara, cwAcrossPara, cwCluePara, cwIcePara] _ (by decide)

/-! ### C5 -/

/-- The captured letters of the option lines of a paragraph, in order of
appearance. -/
def optionLetters (p : Paragraph) : List Char :=
  (((splitLines (strip p.text)).drop 1).filterMap optionLineOf).map Prod.fst

/-- The cleaned option texts of a paragraph, in order of appearance of the
lettered lines. -/
def optionTexts (p : Paragraph) : List Str :=
  ((splitLines (strip p.text)).drop 1).filterMap
    (fun l => (optionLineOf l).map (fun ol => rstripDots (strip ol.2)))

/-- The bold-derived correctness flag of the letter `c` for paragraph `p`. -/
def mcCorrectOf (p : Paragraph) (c : Char) : Bool :=
  ((buildRunsMap p.runs (splitLines (strip p.text)) 0).filter (fun pr => pr.1 == c)).any
    (fun pr => !(strip pr.2.text).isEmpty && pr.2.bold)

theorem mc_options_of_eq (p : Paragraph) :
    mc_options_of p =
      ((((splitLines (strip p.text)).drop 1).filterMap optionLineOf).map
        (fun ol => (⟨rstripDots (strip ol.2), mcCorrectOf p ol.1⟩ : MCOption))) := by
  simp only [mc_options_of, mcCorrectOf]
  rw [List.map_filterMap]

theorem mc_options_texts (p : Paragraph) :
    (mc_options_of p).map MCOption.text = optionTexts p := by
  rw [mc_options_of_eq, optionTexts, List.map_map, List.map_filterMap]
  rfl

theorem mc_options_length (p : Paragraph) :
    (mc_options_of p).length = (optionLetters p).length := by
  rw [mc_options_of_eq, optionLetters, List.length_map, List.length_map]

theorem optionLineOf_letter {l : Str} {ol : Char × Str} (h : optionLineOf l = some ol) :
    isOptionLetter ol.1 = true := by
  unfold optionLineOf at h
  split at h
  · rename_i a t
    split at h
    · rw [Option.map_eq_some'] at h
      obtain ⟨g, -, hg⟩ := h
      rw [← hg]
      assumption
    · cases h
  · cases h

theorem letters_bound (p : Paragraph) : ∀ c ∈ optionLetters p, isOptionLetter c = true := by
  intro c hc
  rw [optionLetters] at hc
  obtain ⟨ol, hol, rfl⟩ := List.mem_map.mp hc
  obtain ⟨l, -, hl⟩ := List.mem_filterMap.mp hol
  exact optionLineOf_letter hl

theorem nodup_letters_le_four (cs : List Char) (hn : cs.Nodup)
    (hall : ∀ c ∈ cs, isOptionLetter c = true) : cs.length ≤ 4 := by
  have hsub : cs.toFinset ⊆ ({'A', 'B', 'C', 'D'} : Finset Char) := by
    intro c hc
    rw [List.mem_toFinset] at hc
    have h := hall c hc
    simp only [isOptionLetter, Bool.or_eq_true, beq_iff_eq] at h
    rcases h with ((rfl | rfl) | rfl) | rfl <;> simp
  have hcard := Finset.card_le_card hsub
  rw [List.toFinset_card_of_nodup hn] at hcard
  have h4 : ({'A', 'B', 'C', 'D'} : Finset Char).card ≤ 4 := by
    apply le_trans (Finset.card_insert_le _ _)
    apply Nat.succ_le_succ
    apply le_trans (Finset.card_insert_le _ _)
    apply Nat.succ_le_succ
    apply le_trans (Finset.card_insert_le _ _)
    apply Nat.succ_le_succ
    simp
  omega

theorem mcStep_qs (paras : List Paragraph) (idx : Nat) (st : MCState) (p : Paragraph) :
    (mcStep paras idx st p).qs = st.qs ∨
      ∃ q, (mcStep paras idx st p).qs = st.qs ++ [q] ∧
        q.options = mc_options_of p ∧ q.options ≠ [] := by
  simp only [mcStep]
  repeat' split
  all_goals try exact Or.inl rfl
  all_goals exact Or.inr ⟨_, rfl, rfl, by assumption⟩

theorem mcGo_sound (paras : List Paragraph) :
    ∀ (rem : List Paragraph) (idx : Nat) (st : MCState),
      (∀ q ∈ st.qs, q.options ≠ [] ∧ ∃ p, p ∈ paras ∧ q.options = mc_options_of p) →
      (∀ p ∈ rem, p ∈ paras) →
      ∀ q ∈ (mcGo paras idx rem st).qs,
        q.options ≠ [] ∧ ∃ p, p ∈ paras ∧ q.options = mc_options_of p := by
  intro rem
  induction rem with
  | nil =>
    intro idx st h hrem q hq
    exact h q hq
  | cons p ps ih =>
    intro idx st h hrem q hq
    simp only [mcGo] at hq
    refine ih (idx + 1) (mcStep paras idx st p) ?_
      (fun p' hp' => hrem p' (List.mem_cons_of_mem p hp')) q hq
    intro q' hq'
    rcases mcStep_qs paras idx st p with heq | ⟨q0, heq, hopt, hne⟩
    · exact h q' (heq ▸ hq')
    · rw [heq] at hq'
      rcases List.mem_append.mp hq' with hh | hh
      · exact h q' hh
      · rw [List.mem_singleton] at hh
        subst hh
        exact ⟨hopt ▸ hne, p, hrem p (List.mem_cons_self p ps), hopt⟩

/-- C5 (amended): every emitted question has at least one option; its
options are those of some paragraph of the document, in order of
appearance of the lettered lines; and when no option letter repeats among
those lines there are at most 4 of them.  (Without that proviso the bound
fails — see the counterexample.) -/
theorem c5_theorem (paras : List Paragraph) (q : MCQuestion)
    (h : q ∈ (extract_multiple_choice_questions paras).qs) :
    q.options ≠ [] ∧ ∃ p, p ∈ paras ∧ q.options = mc_options_of p ∧
      q.options.map MCOption.text = optionTexts p ∧
      ((optionLetters p).Nodup → q.options.length ≤ 4) := by
  obtain ⟨hne, p, hp, hopt⟩ :=
    mcGo_sound paras paras 0 mcInit (by intro q' hq'; simp [mcInit] at hq')
      (fun p' hp' => hp') q h
  refine ⟨hne, p, hp, hopt, ?_, ?_⟩
  · rw [hopt]
    exact mc_options_texts p
  · intro hnd
    rw [hopt, mc_options_length p]
    exact nodup_letters_le_four _ hnd (letters_bound p)

def qParaRepeat : Paragraph := ⟨[⟨("1. Q?\nA. a\nA. b\nA. c\nA. d\nA. e").toList, false⟩], none⟩

/-- C5 (counterexample): the claim's bound of at most 4 options fails for a
paragraph with repeated option letters: five `A.` lines yield five
options. -/
theorem c5_counterexample :
    (extract_multiple_choice_questions [mcHeaderPara, qParaRepeat]).qs.map
      (fun q => q.options.length) = [5] ∧
    ∃ q ∈ (extract_multiple_choice_questions [mcHeaderPara, qParaRepeat]).qs,
      4 < q.options.length := by
  decide

def mcExampleQ : MCQuestion :=
  ⟨("Which planet is closest to the sun?").toList, claimedOptions, none⟩

set_option maxHeartbeats 2000000 in
/-- C5 (witness): the invariants applied to the question extracted from the
worked example document. -/
theorem c5_witness :
    mcExampleQ.options ≠ [] ∧ ∃ p, p ∈ [mcHeaderPara, qParaPerLine] ∧
      mcExampleQ.options = mc_options_of p ∧
      mcExampleQ.options.map MCOption.text = optionTexts p ∧
      ((optionLetters p).Nodup → mcExampleQ.options.length ≤ 4) :=
  c5_theorem [mcHeaderPara, qParaPerLine] mcExampleQ (by decide)

/-! ### C6 -/

theorem toLower_of_isDigit {c : Char} (h : c.isDigit = true) : c.toLower = c := by
  have h' := h
  unfold Char.isDigit at h'
  rw [Bool.and_eq_true] at h'
  obtain ⟨-, hle⟩ := h'
  have hle' : c.val ≤ 57 := of_decide_eq_true hle
  have hnat : c.val.toNat ≤ 57 := UInt32.toNat_le_of_le (by decide) hle'
  have hcond : ¬(Char.toNat c ≥ 65 ∧ Char.toNat c ≤ 90) := by
    rintro ⟨h1, -⟩
    have h2 : Char.toNat c ≤ 57 := hnat
    omega
  unfold Char.toLower
  rw [if_neg hcond]

/-- A case-insensitive literal whose first character is not a digit cannot
match at the head of a string starting with a digit. -/
theorem headCI_digit_false {pat : Str} {d : Char} {u : Str} {a : Char}
    (hd : d.isDigit = true) (hhead : pat.head? = some a) (ha : a.isDigit = false) :
    headCI pat (d :: u) = false := by
  cases b : headCI pat (d :: u)
  · rfl
  · exfalso
    unfold headCI at b
    rw [beq_iff_eq] at b
    cases pat with
    | nil => cases hhead
    | cons a' pt =>
      have ha' : a' = a := Option.some.inj hhead
      rw [List.length_cons, List.take_succ_cons] at b
      simp only [lowerStr, List.map_cons] at b
      have hb : d.toLower = a' := (List.cons.injEq .. ▸ b).1
      rw [toLower_of_isDigit hd] at hb
      rw [hb, ha'] at hd
      rw [hd] at ha
      cases ha

theorem cwClueOf_head {t g : Str} (h : cwClueOf t = some g) :
    ∃ d u, t = d :: u ∧ d.isDigit = true := by
  simp only [cwClueOf] at h
  split at h
  · cases h
  · rename_i hds
    cases t with
    | nil => exact absurd rfl hds
    | cons c u =>
      refine ⟨c, u, rfl, ?_⟩
      by_contra hdig
      apply hds
      rw [Bool.not_eq_true] at hdig
      rw [List.takeWhile_cons]
      simp [hdig]

/-- C6 (amended): while collecting clues with an orientation set, a
paragraph matching the numbered-clue pattern that does not also match the
crossword-header or exit patterns (those take precedence), followed by an
all-caps paragraph, appends exactly one clue with the last orientation set,
the captured clue text and the whitespace-collapsed answer, and advances
the cursor by 2; if the next paragraph is not all-caps (or there is none)
the state is unchanged and the cursor advances by 1. -/
theorem c6_theorem (st : CWState) (cw : Crossword) (o g : Str) (p np : Paragraph)
    (h1 : st.inSec = true) (h2 : st.current = some cw) (h3 : st.collecting = true)
    (h4 : st.orientation = some o)
    (h5 : cwHeader (strip p.text) = none) (h6 : cwExit (strip p.text) = false)
    (h7 : cwClueOf (strip p.text) = some g) :
    (capsMatch (strip np.text) = true →
      cwStep st p (some np) =
        ({ st with current := some ⟨cw.title,
            cw.clues ++ [⟨o, strip g, wsCollapse (strip np.text)⟩]⟩ }, 2)) ∧
    (capsMatch (strip np.text) = false → cwStep st p (some np) = (st, 1)) ∧
    cwStep st p none = (st, 1) := by
  obtain ⟨d, u, hdu, hd⟩ := cwClueOf_head h7
  have htne : strip p.text ≠ [] := by rw [hdu]; exact List.cons_ne_nil d u
  have hcm : cluesMarker (strip p.text) = false := by
    unfold cluesMarker
    rw [hdu, headCI_digit_false hd (show (("clue").toList).head? = some 'c' from rfl) (by decide),
      Bool.false_and]
  have hor : orientationOf (strip p.text) = none := by
    unfold orientationOf
    rw [hdu, headCI_digit_false hd (show (("across").toList).head? = some 'a' from rfl) (by decide),
      headCI_digit_false hd (show (("down").toList).head? = some 'd' from rfl) (by decide)]
    simp
  refine ⟨?_, ?_, ?_⟩
  · intro hcaps
    simp [cwStep, htne, h5, h6, h2, h1, hcm, hor, h3, h4, h7, hcaps]
  · intro hcaps
    simp [cwStep, htne, h5, h6, h2, h1, hcm, hor, h3, h4, h7, hcaps]
  · simp [cwStep, htne, h5, h6, h2, h1, hcm, hor, h3, h4, h7]

def cwStC : CWState := ⟨[], some ⟨("T").toList, []⟩, some (("across").toList), true, true⟩
def pClueBad : Paragraph := ⟨[⟨("4. See Unit 2 notes").toList, false⟩], none⟩

set_option maxHeartbeats 2000000 in
/-- C6 (counterexample): `4. See Unit 2 notes` matches the numbered-clue
pattern and is followed by the all-caps paragraph `ICE`, yet — because the
text also matches the exit pattern `Unit\s*2`, which is tested first — the
step closes the section, appends no clue and advances by 1, contradicting
the claim. -/
theorem c6_counterexample :
    (cwClueOf (strip pClueBad.text)).isSome = true ∧
    capsMatch (strip cwIcePara.text) = true ∧
    cwStep cwStC pClueBad (some cwIcePara) =
      (⟨[], some ⟨("T").toList, []⟩, some (("across").toList), false, true⟩, 1) ∧
    cwStep cwStC pClueBad (some cwIcePara) ≠
      ({ cwStC with current := some ⟨("T").toList,
          [⟨("across").toList, ("See Unit 2 notes").toList, ("ICE").toList⟩]⟩ }, 2) := by
  decide

set_option maxHeartbeats 2000000 in
/-- C6 (witness): the clue-pair step applied to the spec's example:
`4. A frozen form of water` followed by `ICE` while collecting `across`
clues. -/
theorem c6_witness :
    cwStep cwStC cwCluePara (some cwIcePara) =
      ({ cwStC with current := some ⟨("T").toList,
          [⟨("across").toList, ("A frozen form of water").toList, ("ICE").toList⟩]⟩ }, 2) :=
  (c6_theorem cwStC ⟨("T").toList, []⟩ (("across").toList)
      (("A frozen form of water").toList) cwCluePara cwIcePara
      rfl rfl rfl rfl (by decide) (by decide) (by decide)).1 (by decide)

end BatchDocx
